import Mathlib

/-!
Shallow embedding of the tool-calling orchestration core of the
AI_Agent_IDE repository:

* memory store              — src/lib/agent/memory.ts
* workflow tracker          — src/lib/agent/workflow.ts
* checkpoint store          — src/lib/agent/README.md (CheckpointStore source,
                              mirroring src/lib/agent/checkpoints.ts)
* agent executor loop       — src/lib/agent/executor.ts
* approval resolution route — src/app/api/agent/approve/route.ts

Modelling conventions: `crypto.randomUUID()` is modelled by a monotone
`Nat` counter carried in the state; `Date.now()` by a monotone clock
counter; JS `Map`s by insertion-ordered association lists; a JS value that
may be `undefined` by `Option`; a thrown JS exception by an `Except`/`Option`
error branch.  The language-model client, `JSON.parse` of tool arguments,
and the individual tool executors are abstract capabilities (fields of
`Env`), exactly as the executor consumes them.  The `debugTracer` calls of
executor.ts are pure observability (they do not affect events, stores or
control flow) and are not modelled.
-/

namespace AgentIDE

/-- JS `String.prototype.replace` with a global literal pattern: scan left
to right, replace non-overlapping occurrences, never rescan the
replacement.  The fuel argument (initialised to the string length) only
makes the recursion structural: each step consumes at least one character,
so it never runs out. -/
def replaceAllFuel (pat rep : List Char) : Nat → List Char → List Char
  | 0, s => s
  | Nat.succ fuel, s =>
    match s with
    | [] => []
    | c :: rest =>
      if pat ≠ [] && pat.isPrefixOf s then
        rep ++ replaceAllFuel pat rep fuel (s.drop pat.length)
      else
        c :: replaceAllFuel pat rep fuel rest

/-- `s.replace(/lit/g, rep)` for a literal pattern `lit`. -/
def jsReplaceAll (s pat rep : String) : String :=
  ⟨replaceAllFuel pat.data rep.data s.data.length s.data⟩

/-- JS `s.replace(/\\r\\n/g, '\r\n').replace(/\\n/g, '\n')` — the line-break
normalization used at executor.ts:311-316 and approve/route.ts:52-55; the
literal two-character sequences backslash-r-backslash-n and backslash-n are
replaced by real CRLF / LF. -/
def fixNewlines (s : String) : String :=
  jsReplaceAll (jsReplaceAll s "\\r\\n" "\r\n") "\\n" "\n"

/-- JS `array.slice(-limit)`: for `limit = 0` this is `slice(0)` (the whole
array, because `-0 === 0`); for `limit > 0` it is the last `limit` elements
(all of them when fewer exist). -/
def sliceNeg {α : Type} (l : List α) (limit : Nat) : List α :=
  if limit = 0 then l else l.drop (l.length - limit)

/-- Replace the first element satisfying `p` (the JS pattern
`const x = list.find(...); if (x) mutate x`). -/
def updateFirst {α : Type} (l : List α) (p : α → Bool) (f : α → α) : List α :=
  match l with
  | [] => []
  | x :: xs => if p x then f x :: xs else x :: updateFirst xs p f

/-! ## Memory store (src/lib/agent/memory.ts) -/

/-- `Memory.type` (src/lib/agent/types.ts). -/
inductive MemType
  | conversation
  | file_operation
  | task_result
deriving DecidableEq, Repr

/-- A memory entry (src/lib/agent/types.ts `Memory`).  Of the free-form
`metadata` record only the `role` field is retained: it is the only
metadata field the core reads back (executor.ts:182). -/
structure Memory where
  id : Nat
  sessionId : String
  type : MemType
  content : String
  metaRole : Option String := none
  createdAt : Nat := 0
deriving DecidableEq, Repr

/-- `InMemoryDatabase.memories : Map<string, Memory[]>` as an
insertion-ordered association list. -/
abbrev MemDb := List (String × List Memory)

/-- `this.memories.get(sessionId) || []`. -/
def dbFind (db : MemDb) (sessionId : String) : List Memory :=
  ((db.find? (fun p => p.1 = sessionId)).map Prod.snd).getD []

/-- `InMemoryDatabase.addMemory`: push onto the session's array, creating
the entry when absent.  (Keys are unique by construction, so updating every
entry with the matching key updates exactly the one `Map` slot.) -/
def dbAddMemory (db : MemDb) (m : Memory) : MemDb :=
  if (db.find? (fun p => p.1 = m.sessionId)).isSome then
    db.map (fun p => if p.1 = m.sessionId then (p.1, p.2 ++ [m]) else p)
  else
    db ++ [(m.sessionId, [m])]

/-- `InMemoryDatabase.getMemories`: `sessionMemories.slice(-limit)`. -/
def getMemories (db : MemDb) (sessionId : String) (limit : Nat) : List Memory :=
  sliceNeg (dbFind db sessionId) limit

/-- `InMemoryDatabase.getMemoriesByType`: filter by type, then
`slice(-limit)`. -/
def getMemoriesByType (db : MemDb) (sessionId : String) (type : MemType)
    (limit : Nat) : List Memory :=
  sliceNeg ((dbFind db sessionId).filter (fun m => m.type == type)) limit

/-- `MemoryManager.getRecentConversations`. -/
def getRecentConversations (db : MemDb) (sessionId : String) (limit : Nat) :
    List Memory :=
  getMemoriesByType db sessionId MemType.conversation limit

/-- `InMemoryDatabase.clearSession`. -/
def dbClearSession (db : MemDb) (sessionId : String) : MemDb :=
  db.filter (fun p => !(p.1 == sessionId))

/-! ## Workflow tracker (src/lib/agent/workflow.ts) -/

/-- `WorkflowStepStatus`. -/
inductive WStatus
  | pending
  | in_progress
  | completed
  | error
deriving DecidableEq, Repr

/-- `WorkflowStepType`. -/
inductive WType
  | task
  | tool
  | checkpoint
deriving DecidableEq, Repr

/-- A workflow step.  Of the free-form `metadata` record the fields the
core reads back or the claims mention are retained: `checkpointId` (read by
`findStepByCheckpoint`), `error` and `rejectedReason`. -/
structure WorkflowStep where
  id : Nat
  sessionId : String
  parentId : Option Nat := none
  title : String := ""
  description : Option String := none
  status : WStatus
  type : WType
  checkpointId : Option Nat := none
  errorMsg : Option String := none
  rejectedReason : Option String := none
  startedAt : Nat := 0
  completedAt : Option Nat := none
deriving DecidableEq, Repr

structure WorkflowRun where
  id : Nat
  sessionId : String
  createdAt : Nat
  updatedAt : Nat
  steps : List WorkflowStep
deriving DecidableEq, Repr

/-- `WorkflowManager.workflows : Map<string, WorkflowRun>`. -/
abbrev WfStore := List (String × WorkflowRun)

def wfGet (w : WfStore) (sessionId : String) : Option WorkflowRun :=
  (w.find? (fun p => p.1 = sessionId)).map Prod.snd

/-- `this.workflows.set(sessionId, run)`. -/
def wfSet (w : WfStore) (sessionId : String) (run : WorkflowRun) : WfStore :=
  if (w.find? (fun p => p.1 = sessionId)).isSome then
    w.map (fun p => if p.1 = sessionId then (p.1, run) else p)
  else
    w ++ [(sessionId, run)]

/-- `WorkflowManager.startWorkflow`: replaces the session's run with a fresh
one holding only the root `task` step (status `in_progress`). -/
def startWorkflow (w : WfStore) (sessionId summary : String)
    (runId stepId now : Nat) : WfStore × WorkflowStep :=
  let rootStep : WorkflowStep :=
    { id := stepId, sessionId, title := "处理当前请求",
      description := some summary, status := WStatus.in_progress,
      type := WType.task, startedAt := now }
  let run : WorkflowRun :=
    { id := runId, sessionId, createdAt := now, updatedAt := now,
      steps := [rootStep] }
  (wfSet w sessionId run, rootStep)

/-- `CreateStepInput` of workflow.ts (metadata reduced to `checkpointId` as
above). -/
structure CreateStepInput where
  title : String
  description : Option String := none
  parentId : Option Nat := none
  type : Option WType := none
  status : Option WStatus := none
  checkpointId : Option Nat := none
deriving Repr

/-- `WorkflowManager.startStep`: `null` when the session has no run. -/
def startStep (w : WfStore) (sessionId : String) (input : CreateStepInput)
    (stepId now : Nat) : WfStore × Option WorkflowStep :=
  match wfGet w sessionId with
  | none => (w, none)
  | some run =>
    let step : WorkflowStep :=
      { id := stepId, sessionId, title := input.title,
        description := input.description,
        status := input.status.getD WStatus.in_progress,
        type := input.type.getD WType.tool,
        parentId := input.parentId,
        checkpointId := input.checkpointId,
        startedAt := now }
    let run' := { run with steps := run.steps ++ [step], updatedAt := now }
    (wfSet w sessionId run', some step)

/-- `WorkflowManager.completeStep`: find the step, set `completed`
unconditionally; no-op when the step (or run) is absent. -/
def completeStep (w : WfStore) (sessionId : String) (stepId now : Nat) :
    WfStore :=
  match wfGet w sessionId with
  | none => w
  | some run =>
    if (run.steps.find? (fun s => s.id == stepId)).isSome then
      wfSet w sessionId
        { run with
          steps := updateFirst run.steps (fun s => s.id == stepId)
            (fun s => { s with status := WStatus.completed,
                               completedAt := some now }),
          updatedAt := now }
    else w

/-- `WorkflowManager.failStep`: set `error` unconditionally; the message is
recorded only when truthy (`if (errorMessage)`). -/
def failStep (w : WfStore) (sessionId : String) (stepId : Nat)
    (errorMessage : Option String) (now : Nat) : WfStore :=
  match wfGet w sessionId with
  | none => w
  | some run =>
    if (run.steps.find? (fun s => s.id == stepId)).isSome then
      wfSet w sessionId
        { run with
          steps := updateFirst run.steps (fun s => s.id == stepId)
            (fun s =>
              { s with
                status := WStatus.error
                completedAt := some now
                errorMsg := (match errorMessage with
                  | some e => if e = "" then s.errorMsg else some e
                  | none => s.errorMsg) }),
          updatedAt := now }
    else w

/-- `WorkflowManager.updateStepStatus`: set the given status
unconditionally. -/
def updateStepStatus (w : WfStore) (sessionId : String) (stepId : Nat)
    (status : WStatus) (now : Nat) : WfStore :=
  match wfGet w sessionId with
  | none => w
  | some run =>
    if (run.steps.find? (fun s => s.id == stepId)).isSome then
      wfSet w sessionId
        { run with
          steps := updateFirst run.steps (fun s => s.id == stepId)
            (fun s =>
              { s with
                status := status
                completedAt :=
                  (if status == WStatus.completed || status == WStatus.error
                   then some now else s.completedAt) }),
          updatedAt := now }
    else w

/-- `WorkflowManager.completeByCheckpoint`: find the step whose
`metadata.checkpointId` matches, set `completed` unconditionally. -/
def completeByCheckpoint (w : WfStore) (sessionId : String)
    (checkpointId now : Nat) : WfStore :=
  match wfGet w sessionId with
  | none => w
  | some run =>
    if (run.steps.find? (fun s => s.checkpointId == some checkpointId)).isSome
    then
      wfSet w sessionId
        { run with
          steps := updateFirst run.steps
            (fun s => s.checkpointId == some checkpointId)
            (fun s => { s with status := WStatus.completed,
                               completedAt := some now }),
          updatedAt := now }
    else w

/-- `WorkflowManager.rejectByCheckpoint`: find the step whose
`metadata.checkpointId` matches, set `error` unconditionally. -/
def rejectByCheckpoint (w : WfStore) (sessionId : String)
    (checkpointId : Nat) (reason : Option String) (now : Nat) : WfStore :=
  match wfGet w sessionId with
  | none => w
  | some run =>
    if (run.steps.find? (fun s => s.checkpointId == some checkpointId)).isSome
    then
      wfSet w sessionId
        { run with
          steps := updateFirst run.steps
            (fun s => s.checkpointId == some checkpointId)
            (fun s => { s with status := WStatus.error,
                               completedAt := some now,
                               rejectedReason := reason }),
          updatedAt := now }
    else w

/-- Status of the step with the given id, as observable through
`getWorkflow`/`findStep`. -/
def wfStepStatus (w : WfStore) (sessionId : String) (stepId : Nat) :
    Option WStatus :=
  ((wfGet w sessionId).bind
    (fun run => run.steps.find? (fun s => s.id == stepId))).map
    WorkflowStep.status

/-- Status of the step anchored to the given checkpoint id. -/
def wfStepStatusByCp (w : WfStore) (sessionId : String) (checkpointId : Nat) :
    Option WStatus :=
  ((wfGet w sessionId).bind
    (fun run =>
      run.steps.find? (fun s => s.checkpointId == some checkpointId))).map
    WorkflowStep.status

/-! ## Checkpoint store (src/lib/agent/README.md, `CheckpointStore`) -/

inductive CpStatus
  | pending
  | applied
  | rejected
deriving DecidableEq, Repr

/-- `CodeCheckpoint`.  `modifiedContent` is `Option String` because the
executor forwards the model-supplied `content` argument unchanged when it is
not a string (`typeof newContent === 'string'` guard, executor.ts:311). -/
structure Checkpoint where
  id : Nat
  sessionId : String
  filePath : String
  originalContent : String
  modifiedContent : Option String
  status : CpStatus
  createdAt : Nat
  updatedAt : Nat
deriving DecidableEq, Repr

/-- `CheckpointStore.checkpoints : Map<string, CodeCheckpoint>` keyed by id
(ids are unique by construction). -/
abbrev CpStore := List Checkpoint

/-- `CheckpointStore.create`: always inserts a fresh checkpoint (the
executor passes `status: 'pending'`). -/
def cpCreate (store : CpStore) (sessionId filePath originalContent : String)
    (modifiedContent : Option String) (status : CpStatus) (cpId now : Nat) :
    CpStore × Checkpoint :=
  let cp : Checkpoint :=
    { id := cpId, sessionId, filePath, originalContent, modifiedContent,
      status, createdAt := now, updatedAt := now }
  (store ++ [cp], cp)

/-- `CheckpointStore.get`. -/
def cpGet (store : CpStore) (cpId : Nat) : Option Checkpoint :=
  store.find? (fun c => c.id == cpId)

/-- `CheckpointStore.updateStatus`: overwrites the status unconditionally
(no pending-only guard); no-op when the id is unknown. -/
def cpUpdateStatus (store : CpStore) (cpId : Nat) (status : CpStatus)
    (now : Nat) : CpStore :=
  updateFirst store (fun c => c.id == cpId)
    (fun c => { c with status := status, updatedAt := now })

/-! ## Approval resolution route (src/app/api/agent/approve/route.ts) -/

/-- The request body `{sessionId, filePath, content, approved, checkpointId}`;
`Option` models an absent field.  (`checkpointId` is a UUID string in the
source, always nonempty when present; the JS falsy test `!checkpointId` is
therefore its presence test.) -/
structure ApproveRequest where
  sessionId : Option String := none
  filePath : Option String := none
  content : Option String := none
  approved : Bool := false
  checkpointId : Option Nat := none
deriving DecidableEq, Repr

/-- The discriminated responses of the route. -/
inductive ApproveResponse
  | missingFields
  | notFound
  | rejectedOk
  | missingContent
  | appliedOk (path : String)
deriving DecidableEq, Repr

/-- One `fs.writeFile` call: the route writes under
`path.join(cwd, WORKSPACE_PATH, sessionId, filePath)`; the workspace root is
constant, so a write is identified by `(sessionId, filePath, content)`. -/
structure FileWrite where
  sessionId : String
  filePath : String
  content : String
deriving DecidableEq, Repr

/-- The state the route reads and mutates. -/
structure ApproveState where
  cps : CpStore
  wf : WfStore
  writes : List FileWrite
deriving DecidableEq, Repr

/-- `POST /api/agent/approve` (src/app/api/agent/approve/route.ts).
Note: the checkpoint fetched by `get` is only used for the 404 test — the
write uses the request's `filePath` and `content`, and no check of the
checkpoint's current status is made. -/
def approvePost (st : ApproveState) (req : ApproveRequest) (now : Nat) :
    ApproveState × ApproveResponse :=
  match req.sessionId, req.filePath, req.checkpointId with
  | some sessionId, some filePath, some checkpointId =>
    if sessionId = "" ∨ filePath = "" then (st, ApproveResponse.missingFields)
    else
      match cpGet st.cps checkpointId with
      | none => (st, ApproveResponse.notFound)
      | some _ =>
        if !req.approved then
          let cps := cpUpdateStatus st.cps checkpointId CpStatus.rejected now
          let wf := rejectByCheckpoint st.wf sessionId checkpointId
            (some "用户拒绝修改") now
          ({ st with cps := cps, wf := wf }, ApproveResponse.rejectedOk)
        else
          match req.content with
          | none => (st, ApproveResponse.missingContent)
          | some content =>
            let fixedContent := fixNewlines content
            let writes := st.writes ++
              [{ sessionId, filePath, content := fixedContent }]
            let cps := cpUpdateStatus st.cps checkpointId CpStatus.applied now
            let wf := completeByCheckpoint st.wf sessionId checkpointId now
            ({ cps := cps, wf := wf, writes := writes },
              ApproveResponse.appliedOk filePath)
  | _, _, _ => (st, ApproveResponse.missingFields)

/-! ## Agent executor (src/lib/agent/executor.ts) -/

/-- An LLM chat message (types.ts `Message`); `tool_calls` on assistant
messages is never set by the executor and is omitted. -/
structure Msg where
  role : String
  content : String
  name : Option String := none
  tool_call_id : Option String := none
deriving DecidableEq, Repr

/-- A tool-call request as the executor reads it from the stream:
`toolCall.id`, `toolCall.function?.name`, and
`toolCall.function?.arguments || '\x7b\x7d'` (already defaulted). -/
structure ToolCallReq where
  id : String
  name : String
  argumentsStr : String
deriving DecidableEq, Repr

/-- One chunk of `llmClient.streamChat` (llm.ts `StreamChunk`):
`{delta, tool_calls?, done}`. -/
structure StreamChunk where
  delta : String := ""
  tool_calls : List ToolCallReq := []
  done : Bool := false
deriving DecidableEq, Repr

/-- The parsed tool-call arguments; only the fields the executor itself
reads (`path`, `content` of `write_file`) are typed, `Option` modelling an
absent field. -/
structure ToolArgs where
  path : Option String := none
  content : Option String := none
deriving DecidableEq, Repr

/-- The events yielded by `AgentExecutor.execute`, with the payload fields
the core produces. -/
inductive Event
  | message (content : String)
  | tool_call (name : String) (args : ToolArgs)
  | tool_result (tool : String) (result : String)
  | approval_required (id : Nat) (filePath : String)
      (originalContent : String) (modifiedContent : Option String)
  | error (content : String)
  | done
deriving DecidableEq, Repr

/-- The external capabilities the executor consumes, abstracted exactly at
the call sites of executor.ts. -/
structure Env where
  /-- `llmClient.streamChat(messages, tools, 0.7)`: the chunk stream
  produced for a given message list (deterministic abstraction of the
  streaming completion). -/
  llm : List Msg → List StreamChunk
  /-- `JSON.parse(toolArgsStr)` at executor.ts:290; `none` models a thrown
  `SyntaxError`. -/
  parseArgs : String → Option ToolArgs
  /-- `TOOLS['read_file'].execute({path, workspacePath}).content` with the
  executor's surrounding `try`/`catch` and `|| ''` flattened: `none` models
  a thrown error or an absent/falsy `content` field, both of which the
  executor turns into the empty string (executor.ts:297-308). -/
  readFile : String → Option String
  /-- the names present in the `TOOLS` registry (tools.ts: `read_file`,
  `write_file`, `list_files`, `search_codebase`, `apply_patch`,
  `create_patch`, plus the SDD tools). -/
  knownTools : List String
  /-- `TOOLS[name].execute({...args, workspacePath})` for an ordinary tool:
  `ok` carries the JSON-stringified result, `error` the thrown
  `error.message`. -/
  execTool : String → ToolArgs → Except String String

/-- The mutable state shared by the stores during a turn. -/
structure ExecState where
  db : MemDb
  wf : WfStore
  cps : CpStore
  nextId : Nat
  clock : Nat
  events : List Event := []
  llmCalls : Nat := 0
deriving Repr

/-- Draw a fresh UUID (monotone counter model of `crypto.randomUUID`). -/
def ExecState.fresh (es : ExecState) : Nat × ExecState :=
  (es.nextId, { es with nextId := es.nextId + 1 })

/-- Read the clock (monotone counter model of `Date.now`). -/
def ExecState.tick (es : ExecState) : Nat × ExecState :=
  (es.clock, { es with clock := es.clock + 1 })

/-- An empty process state with counters started at 1. -/
def execState0 : ExecState :=
  { db := [], wf := [], cps := [], nextId := 1, clock := 1 }

/-- The in-flight data of one `execute` turn. -/
structure LoopState where
  es : ExecState
  messages : List Msg
  fullResponse : String
  iterations : Nat
  rootStepId : Option Nat
  sessionId : String
deriving Repr

/-- `AgentExecutorOptions` (fields the control flow reads;
`options.maxIterations || 10` makes 0 and absent both mean 10). -/
structure ExecOptions where
  sessionId : String
  maxIterations : Option Nat := none
deriving Repr

def effectiveMaxIterations (o : Option Nat) : Nat :=
  match o with
  | none => 10
  | some n => if n = 0 then 10 else n

/-- The system instruction of executor.ts:35-103 (a fixed Chinese prompt
text; its exact wording is irrelevant to the control flow and abbreviated
here). -/
def systemPrompt : String := "你是一个专业的 AI 编程助手，类似 Cursor IDE。"

/-- `m.metadata?.role || 'user'` (executor.ts:182). -/
def memRole (m : Memory) : String :=
  match m.metaRole with
  | some r => if r = "" then "user" else r
  | none => "user"

/-- The prompt built at executor.ts:179-186: system instruction, the loaded
history, then the user message again. -/
def buildMessages (recent : List Memory) (userMessage : String) : List Msg :=
  { role := "system", content := systemPrompt } ::
    (recent.map (fun m => { role := memRole m, content := m.content })) ++
    [{ role := "user", content := userMessage }]

/-- The `for await` over `streamChat` chunks (executor.ts:214-235): deltas
are accumulated and yielded as `message` events, `tool_calls` collected,
and the iteration stops at the first chunk with `done` (whose delta and
tool calls are still processed first). Returns
(accumulated response, collected tool calls, yielded events). -/
def consumeStream : List StreamChunk → String × List ToolCallReq × List Event
  | [] => ("", [], [])
  | c :: rest =>
    let evHead : List Event := if c.delta = "" then [] else [Event.message c.delta]
    if c.done then (c.delta, c.tool_calls, evHead)
    else
      let (r, tcs, evs) := consumeStream rest
      (c.delta ++ r, c.tool_calls ++ tcs, evHead ++ evs)

/-- Models the message of the `SyntaxError` thrown by `JSON.parse` on
invalid input (executor.ts:290); the exact wording is runtime-dependent. -/
def jsonParseErrorMsg (s : String) : String :=
  "Unexpected token in JSON: " ++ s

/-- `JSON.stringify({success: true, message: '修改建议已提交，等待用户审批'})`
— the synthetic tool result appended after a mutation proposal
(executor.ts:352-360). -/
def approvalPendingJson : String :=
  "\x7b\"success\":true,\"message\":\"修改建议已提交，等待用户审批\"\x7d"

/-- `JSON.stringify({error: message})` fed back on a tool failure
(executor.ts:494-499), assuming no characters needing JSON escaping. -/
def jsonErrorObj (e : String) : String :=
  "\x7b\"error\":\"" ++ e ++ "\"\x7d"

/-- `JSON.stringify(toolArgs)` as stored in the `file_operation` memory
entry and the step description, restricted to the modelled fields. -/
def argsJson (a : ToolArgs) : String :=
  "\x7b" ++
    (match a.path with
      | some p => "\"path\":\"" ++ p ++ "\""
      | none => "") ++
    (match a.content with
      | some c => ",\"content\":\"" ++ c ++ "\""
      | none => "") ++ "\x7d"

/-- The forced follow-up instruction pushed after a successful `read_file`
(executor.ts:459-464). -/
def afterReadFileNudge : String :=
  "【系统要求】你必须立即调用 write_file 工具来修改文件。不要说完成、不要给建议、不要输出代码块。直接调用工具！"

/-- The content of the terminal max-iterations error (executor.ts:521-524). -/
def maxIterMsg : String := "达到最大迭代次数"

/-- Outcome of handling one tool call inside the `for` loop of
executor.ts:284-501. -/
inductive CallOutcome
  /-- fall through to the next tool call of the batch -/
  | next (ls : LoopState)
  /-- the `write_file` branch: `break` out of the `for` loop
  (executor.ts:364).  Note this returns control to the surrounding
  `while` loop. -/
  | mutationBreak (ls : LoopState)
  /-- an exception not caught by the inner `try` (only `JSON.parse` can
  throw there), propagating to the outer `catch` of executor.ts:526. -/
  | thrown (ls : LoopState) (msg : String)

/-- Handling of one tool call (executor.ts:284-501). -/
def processCall (env : Env) (ls : LoopState) (tc : ToolCallReq) : CallOutcome :=
  match env.parseArgs tc.argumentsStr with
  | none => CallOutcome.thrown ls (jsonParseErrorMsg tc.argumentsStr)
  | some toolArgs =>
    if tc.name = "write_file" then
      -- mutation interception (executor.ts:293-365)
      let filePath := toolArgs.path.getD ""
      let originalContent := (env.readFile filePath).getD ""
      let fixedNewContent := toolArgs.content.map fixNewlines
      let fixedOriginalContent := fixNewlines originalContent
      let (cpId, es) := ls.es.fresh
      let (now, es) := es.tick
      let (cps, _cp) := cpCreate es.cps ls.sessionId filePath
        fixedOriginalContent fixedNewContent CpStatus.pending cpId now
      let es := { es with cps := cps }
      let es :=
        match ls.rootStepId with
        | some rootId =>
          let (stepId, es) := es.fresh
          let (now2, es) := es.tick
          let (wf, _step) := startStep es.wf ls.sessionId
            { title := "修改 " ++ filePath
              description := some "AI 提交了代码修改，等待审批"
              parentId := some rootId
              type := some WType.checkpoint
              status := some WStatus.pending
              checkpointId := some cpId } stepId now2
          { es with wf := wf }
        | none => es
      let es := { es with events := es.events ++
        [Event.approval_required cpId filePath fixedOriginalContent
          fixedNewContent] }
      let messages := ls.messages ++
        [{ role := "tool", content := approvalPendingJson,
           name := some tc.name, tool_call_id := some tc.id }]
      let es := { es with events := es.events ++ [Event.done] }
      CallOutcome.mutationBreak { ls with es := es, messages := messages }
    else
      -- ordinary tool (executor.ts:367-500)
      let es := { ls.es with events := ls.es.events ++
        [Event.tool_call tc.name toolArgs] }
      let (workflowStepId, es) :=
        match ls.rootStepId with
        | some rootId =>
          let (stepId, es) := es.fresh
          let (now, es) := es.tick
          let (wf, stepOpt) := startStep es.wf ls.sessionId
            { title := "调用 " ++ tc.name
              description := some (argsJson toolArgs)
              parentId := some rootId
              type := some WType.tool } stepId now
          ((stepOpt.map WorkflowStep.id), { es with wf := wf })
        | none => (none, es)
      -- (the toolCallSteps map is only a fallback for the failStep id and
      -- always resolves to workflowStepId here; elided)
      if tc.name ∈ env.knownTools then
        match env.execTool tc.name toolArgs with
        | Except.ok result =>
          let es :=
            match workflowStepId with
            | some sid =>
              let (now, es) := es.tick
              { es with wf := completeStep es.wf ls.sessionId sid now }
            | none => es
          let (memId, es) := es.fresh
          let (now, es) := es.tick
          let opMem : Memory :=
            { id := memId
              sessionId := ls.sessionId
              type := MemType.file_operation
              content := tc.name ++ ": " ++ argsJson toolArgs
              createdAt := now }
          let es := { es with db := dbAddMemory es.db opMem }
          let es := { es with events := es.events ++
            [Event.tool_result tc.name result] }
          let messages := ls.messages ++
            [{ role := "tool", content := result,
               name := some tc.name, tool_call_id := some tc.id }]
          let messages :=
            if tc.name = "read_file" then
              messages ++ [{ role := "system", content := afterReadFileNudge }]
            else messages
          CallOutcome.next { ls with es := es, messages := messages }
        | Except.error emsg =>
          -- inner catch (executor.ts:465-500)
          let es :=
            match workflowStepId with
            | some sid =>
              let (now, es) := es.tick
              { es with wf := failStep es.wf ls.sessionId sid (some emsg) now }
            | none => es
          let es := { es with events := es.events ++
            [Event.error ("工具执行失败: " ++ emsg)] }
          let messages := ls.messages ++
            [{ role := "tool", content := jsonErrorObj emsg,
               name := some tc.name, tool_call_id := some tc.id }]
          CallOutcome.next { ls with es := es, messages := messages }
      else
        -- `TOOLS[toolName]` undefined: `throw new Error('Unknown tool: ...')`
        -- — caught by the same inner catch
        let emsg := "Unknown tool: " ++ tc.name
        let es :=
          match workflowStepId with
          | some sid =>
            let (now, es) := es.tick
            { es with wf := failStep es.wf ls.sessionId sid (some emsg) now }
          | none => es
        let es := { es with events := es.events ++
          [Event.error ("工具执行失败: " ++ emsg)] }
        let messages := ls.messages ++
          [{ role := "tool", content := jsonErrorObj emsg,
             name := some tc.name, tool_call_id := some tc.id }]
        CallOutcome.next { ls with es := es, messages := messages }

/-- The `for (const toolCall of currentToolCalls)` loop.  A `write_file`
`break` ends the batch but — like the all-calls-processed case — returns
control to the `while` loop; only an uncaught exception escapes. -/
def processCalls (env : Env) (ls : LoopState) :
    List ToolCallReq → Except (LoopState × String) LoopState
  | [] => Except.ok ls
  | tc :: rest =>
    match processCall env ls tc with
    | CallOutcome.thrown ls' msg => Except.error (ls', msg)
    | CallOutcome.mutationBreak ls' => Except.ok ls'
    | CallOutcome.next ls' => processCalls env ls' rest

/-- Result of the `while` loop. -/
inductive LoopResult
  /-- the loop stopped: condition false, or natural-completion `break` -/
  | finished (ls : LoopState)
  /-- an exception propagated to the outer catch -/
  | thrown (ls : LoopState) (msg : String)

/-- The `while (iterations < maxIterations)` loop of executor.ts:195-502,
with `fuel = maxIterations - iterations` remaining iterations. -/
def loopGo (env : Env) (sessionId : String) :
    Nat → LoopState → LoopResult
  | 0, ls => LoopResult.finished ls
  | Nat.succ fuel, ls =>
    let ls := { ls with iterations := ls.iterations + 1 }
    let (currentResponse, toolCalls, evs) := consumeStream (env.llm ls.messages)
    let es := { ls.es with
      events := ls.es.events ++ evs
      llmCalls := ls.es.llmCalls + 1 }
    let fullResponse := ls.fullResponse ++ currentResponse
    let messages :=
      if currentResponse ≠ "" then
        ls.messages ++ [{ role := "assistant", content := currentResponse }]
      else ls.messages
    let ls := { ls with
      es := es
      messages := messages
      fullResponse := fullResponse }
    if toolCalls.isEmpty then
      -- natural completion (executor.ts:255-279)
      let (memId, es) := ls.es.fresh
      let (now, es) := es.tick
      let doneMem : Memory :=
        { id := memId
          sessionId := sessionId
          type := MemType.conversation
          content := ls.fullResponse
          metaRole := some "assistant"
          createdAt := now }
      let es := { es with db := dbAddMemory es.db doneMem }
      let es :=
        match ls.rootStepId with
        | some rootId =>
          let (now2, es) := es.tick
          { es with wf := completeStep es.wf sessionId rootId now2 }
        | none => es
      let es := { es with events := es.events ++ [Event.done] }
      LoopResult.finished { ls with es := es }
    else
      match processCalls env ls toolCalls with
      | Except.error (ls', msg) => LoopResult.thrown ls' msg
      | Except.ok ls' => loopGo env sessionId fuel ls'

/-- The turn setup of executor.ts:150-193: start the workflow run, append
the user message to memory, load the last 20 conversation entries, and
build the prompt. -/
def initExec (opts : ExecOptions) (es0 : ExecState) (userMessage : String) :
    LoopState :=
  let (runId, es) := es0.fresh
  let (rootId, es) := es.fresh
  let (now, es) := es.tick
  let (wf, rootStep) := startWorkflow es.wf opts.sessionId userMessage
    runId rootId now
  let es := { es with wf := wf }
  let rootStepId := some rootStep.id
  let (memId, es) := es.fresh
  let (now2, es) := es.tick
  let userMem : Memory :=
    { id := memId
      sessionId := opts.sessionId
      type := MemType.conversation
      content := userMessage
      metaRole := some "user"
      createdAt := now2 }
  let es := { es with db := dbAddMemory es.db userMem }
  let recent := getRecentConversations es.db opts.sessionId 20
  { es := es
    messages := buildMessages recent userMessage
    fullResponse := ""
    iterations := 0
    rootStepId := rootStepId
    sessionId := opts.sessionId }

/-- The code after the `while` loop plus the outer `catch`
(executor.ts:504-544).  The `iterations >= maxIterations` test runs on any
loop exit — including a natural-completion `break` on the final allowed
iteration — but not when an exception was thrown. -/
def finalizeExec (opts : ExecOptions) (r : LoopResult) : LoopState :=
  let maxIterations := effectiveMaxIterations opts.maxIterations
  match r with
  | LoopResult.finished ls =>
    if ls.iterations ≥ maxIterations then
      let es :=
        match ls.rootStepId with
        | some rootId =>
          let (now, es) := ls.es.tick
          { es with
            wf := failStep es.wf opts.sessionId rootId (some maxIterMsg) now }
        | none => ls.es
      { ls with es := { es with events := es.events ++ [Event.error maxIterMsg] } }
    else ls
  | LoopResult.thrown ls msg =>
    let es :=
      match ls.rootStepId with
      | some rootId =>
        let (now, es) := ls.es.tick
        { es with wf := failStep es.wf opts.sessionId rootId (some msg) now }
      | none => ls.es
    { ls with es := { es with events := es.events ++ [Event.error msg] } }

/-- `AgentExecutor.execute(userMessage)`: one full turn, returning the final
state (whose `es.events` is the emitted event stream, in order). -/
def execute (env : Env) (opts : ExecOptions) (es0 : ExecState)
    (userMessage : String) : LoopState :=
  let ls := initExec opts es0 userMessage
  finalizeExec opts
    (loopGo env opts.sessionId (effectiveMaxIterations opts.maxIterations) ls)

/-! ## C2 — checkpoint resolution idempotence -/

/-- A pending checkpoint used by the route counterexamples. -/
def cpPendingA : Checkpoint :=
  { id := 1
    sessionId := "s"
    filePath := "a.py"
    originalContent := ""
    modifiedContent := some "AAA"
    status := CpStatus.pending
    createdAt := 0
    updatedAt := 0 }

/-- An already-applied checkpoint for the C2 witness. -/
def cpAppliedB : Checkpoint :=
  { id := 2
    sessionId := "s"
    filePath := "b.py"
    originalContent := "o"
    modifiedContent := some "m"
    status := CpStatus.applied
    createdAt := 0
    updatedAt := 0 }

/-! ## C6 — approval resolution effect -/

/-- A pending checkpoint whose stored path/content differ from the
request's. -/
def cpPendingC : Checkpoint :=
  { id := 1
    sessionId := "s"
    filePath := "a.py"
    originalContent := ""
    modifiedContent := some "AAA"
    status := CpStatus.pending
    createdAt := 0
    updatedAt := 0 }

/-- A minimal environment for the C9 witness: the read of any path fails
(absent file). -/
def envC9 : Env :=
  { llm := fun _ => []
    parseArgs := fun _ =>
      some { path := some "hello.py", content := some "print(1)" }
    readFile := fun _ => none
    knownTools := []
    execTool := fun _ _ => Except.ok "" }

/-- A bare in-flight turn state for the C9 witness. -/
def lsC9 : LoopState :=
  { es := execState0
    messages := []
    fullResponse := ""
    iterations := 0
    rootStepId := none
    sessionId := "s" }

/-! ## Concrete executor runs (C1, C3, C4) -/

/-- The discriminant of an `Event` (the `type` field of the wire record). -/
inductive EventKind
  | messageK
  | tool_callK
  | tool_resultK
  | approvalK
  | errorK
  | doneK
deriving DecidableEq, Repr

def Event.kind : Event → EventKind
  | Event.message _ => EventKind.messageK
  | Event.tool_call _ _ => EventKind.tool_callK
  | Event.tool_result _ _ => EventKind.tool_resultK
  | Event.approval_required _ _ _ _ => EventKind.approvalK
  | Event.error _ => EventKind.errorK
  | Event.done => EventKind.doneK

/-- The names of the `TOOLS` registry (tools.ts). -/
def knownToolNames : List String :=
  ["read_file", "write_file", "list_files", "search_codebase",
   "apply_patch", "create_patch"]

/-- A mock model that proposes a `write_file` on the first call (when the
prompt is still system + history + user, i.e. three messages) and answers
with plain text on any later call. -/
def llmC1 (msgs : List Msg) : List StreamChunk :=
  if msgs.length ≤ 3 then
    [{ tool_calls :=
        [{ id := "call_1", name := "write_file", argumentsStr := "argsA" }]
       done := true }]
  else
    [{ delta := "好的", done := true }]

def envC1 : Env :=
  { llm := llmC1
    parseArgs := fun _ =>
      some { path := some "hello.py", content := some "print(1)" }
    readFile := fun _ => none
    knownTools := knownToolNames
    execTool := fun _ _ => Except.ok "ok" }

/-- A mock model that always answers with plain text and no tool calls. -/
def envC4 : Env :=
  { llm := fun _ => [{ delta := "hi", done := true }]
    parseArgs := fun _ => none
    readFile := fun _ => none
    knownTools := knownToolNames
    execTool := fun _ _ => Except.error "no" }

/-- A mock model that requests a `list_files` call with malformed (not
JSON-parseable) arguments. -/
def envC3 : Env :=
  { llm := fun _ =>
      [{ tool_calls :=
          [{ id := "c1", name := "list_files", argumentsStr := "oops" }]
         done := true }]
    parseArgs := fun _ => none
    readFile := fun _ => none
    knownTools := knownToolNames
    execTool := fun _ _ => Except.ok "ok" }

/-- A mock model that always requests one `list_files` call. -/
def envC5 : Env :=
  { llm := fun _ =>
      [{ tool_calls :=
          [{ id := "c1", name := "list_files", argumentsStr := "a" }]
         done := true }]
    parseArgs := fun _ => some {}
    readFile := fun _ => none
    knownTools := knownToolNames
    execTool := fun _ _ => Except.ok "r" }

/-! ## Generic lemmas about the store primitives -/

theorem find?_updateFirst_self {α : Type} (l : List α) (p : α → Bool)
    (f : α → α) (h2 : ∀ x, p (f x) = p x) :
    (updateFirst l p f).find? p = (l.find? p).map f := by
  induction l with
  | nil => simp [updateFirst]
  | cons x xs ih =>
    by_cases hx : p x
    · simp [updateFirst, hx, List.find?_cons, h2 x]
    · simp [updateFirst, hx, List.find?_cons, ih]

theorem find?_updateFirst_disjoint {α : Type} (l : List α) (p q : α → Bool)
    (f : α → α) (h1 : ∀ x, p x = true → q x = false)
    (h2 : ∀ x, q (f x) = q x) :
    (updateFirst l p f).find? q = l.find? q := by
  induction l with
  | nil => simp [updateFirst]
  | cons x xs ih =>
    by_cases hx : p x
    · have hq : q x = false := h1 x hx
      simp [updateFirst, hx, List.find?_cons, h2 x, hq]
    · by_cases hqx : q x
      · simp [updateFirst, hx, List.find?_cons, hqx]
      · simp [updateFirst, hx, List.find?_cons, hqx, ih]

theorem wfGet_wfSet (w : WfStore) (sess : String) (run : WorkflowRun) :
    wfGet (wfSet w sess run) sess = some run := by
  induction w with
  | nil => simp [wfGet, wfSet]
  | cons p rest ih =>
    by_cases h : p.1 = sess
    · simp [wfGet, wfSet, List.find?_cons, h]
    · by_cases hr : ((rest.find? (fun q => q.1 = sess)).isSome : Prop)
      · have : wfSet (p :: rest) sess run =
            p :: (rest.map (fun q => if q.1 = sess then (q.1, run) else q)) := by
          simp [wfSet, List.find?_cons, h, hr]
        rw [this]
        have hrw : wfSet rest sess run =
            rest.map (fun q => if q.1 = sess then (q.1, run) else q) := by
          simp [wfSet, hr]
        rw [← hrw]
        simpa [wfGet, List.find?_cons, h] using ih
      · have : wfSet (p :: rest) sess run = p :: (rest ++ [(sess, run)]) := by
          simp [wfSet, List.find?_cons, h, hr]
        rw [this]
        have hrw : wfSet rest sess run = rest ++ [(sess, run)] := by
          simp [wfSet, hr]
        rw [← hrw]
        simpa [wfGet, List.find?_cons, h] using ih

theorem dbFind_dbAddMemory (db : MemDb) (m : Memory) :
    dbFind (dbAddMemory db m) m.sessionId = dbFind db m.sessionId ++ [m] := by
  induction db with
  | nil => simp [dbFind, dbAddMemory]
  | cons p rest ih =>
    by_cases h : p.1 = m.sessionId
    · simp [dbFind, dbAddMemory, List.find?_cons, h]
    · by_cases hr : ((rest.find? (fun q => q.1 = m.sessionId)).isSome : Prop)
      · have : dbAddMemory (p :: rest) m =
            p :: (rest.map (fun q =>
              if q.1 = m.sessionId then (q.1, q.2 ++ [m]) else q)) := by
          simp [dbAddMemory, List.find?_cons, h, hr]
        rw [this]
        have hrw : dbAddMemory rest m =
            rest.map (fun q =>
              if q.1 = m.sessionId then (q.1, q.2 ++ [m]) else q) := by
          simp [dbAddMemory, hr]
        rw [← hrw]
        simpa [dbFind, List.find?_cons, h] using ih
      · have : dbAddMemory (p :: rest) m = p :: (rest ++ [(m.sessionId, [m])]) := by
          simp [dbAddMemory, List.find?_cons, h, hr]
        rw [this]
        have hrw : dbAddMemory rest m = rest ++ [(m.sessionId, [m])] := by
          simp [dbAddMemory, hr]
        rw [← hrw]
        simpa [dbFind, List.find?_cons, h] using ih

theorem cpGet_cpUpdateStatus (store : CpStore) (cpId : Nat) (status : CpStatus)
    (now : Nat) :
    cpGet (cpUpdateStatus store cpId status now) cpId =
      (cpGet store cpId).map
        (fun c => { c with status := status, updatedAt := now }) := by
  unfold cpGet cpUpdateStatus
  exact find?_updateFirst_self store (fun c => c.id == cpId)
    (fun c => { c with status := status, updatedAt := now }) (fun _ => rfl)

theorem fixNewlines_empty : fixNewlines "" = "" := by decide

theorem effectiveMaxIterations_pos (o : Option Nat) :
    1 ≤ effectiveMaxIterations o := by
  match o with
  | none => simp [effectiveMaxIterations]
  | some n =>
    by_cases h : n = 0
    · simp [effectiveMaxIterations, h]
    · simp [effectiveMaxIterations, h]
      omega

/-! ## Behaviour of the workflow mutators on an existing step -/

/-- Unpack `wfStepStatus w sess sid = some st` into the run and the found
step. -/
theorem wfStepStatus_unpack {w : WfStore} {sess : String} {sid : Nat}
    {st : WStatus} (h : wfStepStatus w sess sid = some st) :
    ∃ run s, wfGet w sess = some run ∧
      run.steps.find? (fun x => x.id == sid) = some s ∧ s.status = st := by
  unfold wfStepStatus at h
  cases hg : wfGet w sess with
  | none => rw [hg] at h; simp at h
  | some run =>
    rw [hg] at h
    cases hf : run.steps.find? (fun x => x.id == sid) with
    | none => simp [hf] at h
    | some s =>
      simp [hf] at h
      exact ⟨run, s, rfl, hf, h⟩

theorem completeStep_sets_completed {w : WfStore} {sess : String} {sid : Nat}
    {st : WStatus} (now : Nat) (h : wfStepStatus w sess sid = some st) :
    wfStepStatus (completeStep w sess sid now) sess sid =
      some WStatus.completed := by
  obtain ⟨run, s, hg, hf, _⟩ := wfStepStatus_unpack h
  unfold completeStep
  rw [hg]
  simp only [hf, Option.isSome_some, if_true, wfStepStatus, wfGet_wfSet,
    Option.some_bind]
  rw [find?_updateFirst_self run.steps (fun s => s.id == sid)
    (fun s => { s with status := WStatus.completed, completedAt := some now })
    (fun _ => rfl), hf]
  rfl

theorem failStep_sets_error {w : WfStore} {sess : String} {sid : Nat}
    {st : WStatus} (msg : Option String) (now : Nat)
    (h : wfStepStatus w sess sid = some st) :
    wfStepStatus (failStep w sess sid msg now) sess sid =
      some WStatus.error := by
  obtain ⟨run, s, hg, hf, _⟩ := wfStepStatus_unpack h
  unfold failStep
  rw [hg]
  simp only [hf, Option.isSome_some, if_true, wfStepStatus, wfGet_wfSet,
    Option.some_bind]
  rw [find?_updateFirst_self run.steps (fun s => s.id == sid)
    (fun s =>
      { s with
        status := WStatus.error
        completedAt := some now
        errorMsg := (match msg with
          | some e => if e = "" then s.errorMsg else some e
          | none => s.errorMsg) })
    (fun _ => rfl), hf]
  rfl

theorem updateStepStatus_sets {w : WfStore} {sess : String} {sid : Nat}
    {st : WStatus} (status : WStatus) (now : Nat)
    (h : wfStepStatus w sess sid = some st) :
    wfStepStatus (updateStepStatus w sess sid status now) sess sid =
      some status := by
  obtain ⟨run, s, hg, hf, _⟩ := wfStepStatus_unpack h
  unfold updateStepStatus
  rw [hg]
  simp only [hf, Option.isSome_some, if_true, wfStepStatus, wfGet_wfSet,
    Option.some_bind]
  rw [find?_updateFirst_self run.steps (fun s => s.id == sid)
    (fun s =>
      { s with
        status := status
        completedAt :=
          (if status == WStatus.completed || status == WStatus.error
           then some now else s.completedAt) })
    (fun _ => rfl), hf]
  rfl

/-- Unpack `wfStepStatusByCp`. -/
theorem wfStepStatusByCp_unpack {w : WfStore} {sess : String} {cpId : Nat}
    {st : WStatus} (h : wfStepStatusByCp w sess cpId = some st) :
    ∃ run s, wfGet w sess = some run ∧
      run.steps.find? (fun x => x.checkpointId == some cpId) = some s ∧
      s.status = st := by
  unfold wfStepStatusByCp at h
  cases hg : wfGet w sess with
  | none => rw [hg] at h; simp at h
  | some run =>
    rw [hg] at h
    cases hf : run.steps.find? (fun x => x.checkpointId == some cpId) with
    | none => simp [hf] at h
    | some s =>
      simp [hf] at h
      exact ⟨run, s, rfl, hf, h⟩

theorem completeByCheckpoint_sets_completed {w : WfStore} {sess : String}
    {cpId : Nat} {st : WStatus} (now : Nat)
    (h : wfStepStatusByCp w sess cpId = some st) :
    wfStepStatusByCp (completeByCheckpoint w sess cpId now) sess cpId =
      some WStatus.completed := by
  obtain ⟨run, s, hg, hf, _⟩ := wfStepStatusByCp_unpack h
  unfold completeByCheckpoint
  rw [hg]
  simp only [hf, Option.isSome_some, if_true, wfStepStatusByCp, wfGet_wfSet,
    Option.some_bind]
  rw [find?_updateFirst_self run.steps (fun s => s.checkpointId == some cpId)
    (fun s => { s with status := WStatus.completed, completedAt := some now })
    (fun _ => rfl), hf]
  rfl

theorem rejectByCheckpoint_sets_error {w : WfStore} {sess : String}
    {cpId : Nat} {st : WStatus} (reason : Option String) (now : Nat)
    (h : wfStepStatusByCp w sess cpId = some st) :
    wfStepStatusByCp (rejectByCheckpoint w sess cpId reason now) sess cpId =
      some WStatus.error := by
  obtain ⟨run, s, hg, hf, _⟩ := wfStepStatusByCp_unpack h
  unfold rejectByCheckpoint
  rw [hg]
  simp only [hf, Option.isSome_some, if_true, wfStepStatusByCp, wfGet_wfSet,
    Option.some_bind]
  rw [find?_updateFirst_self run.steps (fun s => s.checkpointId == some cpId)
    (fun s => { s with status := WStatus.error, completedAt := some now,
                       rejectedReason := reason })
    (fun _ => rfl), hf]
  rfl

/-! ## C7 — workflow step terminal statuses -/

/-- C7, counterexample: the claim says a step that reached `completed` can
never change status again, but `failStep` on an already-`completed` step
overwrites it to `error` (workflow.ts has no terminal-status guard): start a
run, start a tool step, complete it, then fail it — the status flips from
`completed` to `error`. -/
theorem C7_terminal_status_overwritten_counterexample :
    let wf0 := (startWorkflow [] "s" "task" 1 2 0).1
    let wf1 := (startStep wf0 "s"
      { title := "t", parentId := some 2, type := some WType.tool } 3 1).1
    let wf2 := completeStep wf1 "s" 3 2
    let wf3 := failStep wf2 "s" 3 (some "boom") 3
    wfStepStatus wf2 "s" 3 = some WStatus.completed ∧
      wfStepStatus wf3 "s" 3 = some WStatus.error := by
  exact ⟨by decide, by decide⟩

/-- C7, amended: the workflow mutators (`completeStep`, `failStep`,
`updateStepStatus`, `completeByCheckpoint`, `rejectByCheckpoint`) overwrite
a found step's status unconditionally — `completed`/`error` are not
terminal, and any prior status (including a terminal one) is replaced by
the operation's target status. -/
theorem C7_status_overwrite_amended (w : WfStore) (sess : String)
    (sid cpId : Nat) (stA stB : WStatus) (status : WStatus)
    (msg reason : Option String) (now : Nat)
    (h1 : wfStepStatus w sess sid = some stA)
    (h2 : wfStepStatusByCp w sess cpId = some stB) :
    wfStepStatus (completeStep w sess sid now) sess sid =
      some WStatus.completed ∧
    wfStepStatus (failStep w sess sid msg now) sess sid =
      some WStatus.error ∧
    wfStepStatus (updateStepStatus w sess sid status now) sess sid =
      some status ∧
    wfStepStatusByCp (completeByCheckpoint w sess cpId now) sess cpId =
      some WStatus.completed ∧
    wfStepStatusByCp (rejectByCheckpoint w sess cpId reason now) sess cpId =
      some WStatus.error :=
  ⟨completeStep_sets_completed now h1, failStep_sets_error msg now h1,
    updateStepStatus_sets status now h1,
    completeByCheckpoint_sets_completed now h2,
    rejectByCheckpoint_sets_error reason now h2⟩

/-- C7 witness: the amended theorem applied to a run holding a completed
tool step (id 3) that is also anchored to checkpoint 7. -/
theorem C7_status_overwrite_amended_witness :
    let wf1 := (startStep ((startWorkflow [] "s" "task" 1 2 0).1) "s"
      { title := "t"
        parentId := some 2
        type := some WType.tool
        checkpointId := some 7 } 3 1).1
    let wf2 := completeStep wf1 "s" 3 2
    wfStepStatus (completeStep wf2 "s" 3 9) "s" 3 = some WStatus.completed ∧
    wfStepStatus (failStep wf2 "s" 3 (some "m") 9) "s" 3 =
      some WStatus.error ∧
    wfStepStatus (updateStepStatus wf2 "s" 3 WStatus.pending 9) "s" 3 =
      some WStatus.pending ∧
    wfStepStatusByCp (completeByCheckpoint wf2 "s" 7 9) "s" 7 =
      some WStatus.completed ∧
    wfStepStatusByCp (rejectByCheckpoint wf2 "s" 7 (some "r") 9) "s" 7 =
      some WStatus.error :=
  C7_status_overwrite_amended _ "s" 3 7 WStatus.completed WStatus.completed
    WStatus.pending (some "m") (some "r") 9 (by decide) (by decide)

/-! ## C8 — memory recency query -/

/-- C8, counterexample: the claim says `Recent(session, conversation, N)`
returns exactly the `N` most recent entries for every `N ≥ 0`, so `N = 0`
must return the empty list — but `slice(-0)` is `slice(0)`, so the code
returns every conversation entry of the session. -/
theorem C8_zero_limit_counterexample :
    let m0 : Memory :=
      { id := 1
        sessionId := "s"
        type := MemType.conversation
        content := "hi" }
    getRecentConversations (dbAddMemory [] m0) "s" 0 = [m0] := by
  decide

/-- C8, amended: for every `N ≥ 1`, `getRecentConversations` returns the
`min N total` most recently appended conversation entries of the session in
insertion order (a suffix of the session's insertion-ordered conversation
list); for `N = 0` it returns the entire conversation list instead of
nothing. -/
theorem C8_recent_window_amended (db : MemDb) (sess : String) (n : Nat) :
    (1 ≤ n →
      ∃ pre,
        (dbFind db sess).filter (fun m => m.type == MemType.conversation) =
          pre ++ getRecentConversations db sess n ∧
        (getRecentConversations db sess n).length =
          min n ((dbFind db sess).filter
            (fun m => m.type == MemType.conversation)).length) ∧
    getRecentConversations db sess 0 =
      (dbFind db sess).filter (fun m => m.type == MemType.conversation) := by
  constructor
  · intro hn
    have hne : n ≠ 0 := by omega
    unfold getRecentConversations getMemoriesByType sliceNeg
    rw [if_neg hne]
    set l := (dbFind db sess).filter (fun m => m.type == MemType.conversation)
      with hl
    refine ⟨l.take (l.length - n), ?_, ?_⟩
    · rw [List.take_append_drop]
    · rw [List.length_drop]
      omega
  · unfold getRecentConversations getMemoriesByType sliceNeg
    rw [if_pos rfl]

/-- C8 witness: the amended theorem at a two-entry store with `N = 1`. -/
theorem C8_recent_window_amended_witness :
    let m0 : Memory :=
      { id := 1
        sessionId := "s"
        type := MemType.conversation
        content := "a" }
    let m1 : Memory :=
      { id := 2
        sessionId := "s"
        type := MemType.conversation
        content := "b" }
    let db := dbAddMemory (dbAddMemory [] m0) m1
    ∃ pre,
      (dbFind db "s").filter (fun m => m.type == MemType.conversation) =
        pre ++ getRecentConversations db "s" 1 ∧
      (getRecentConversations db "s" 1).length =
        min 1 ((dbFind db "s").filter
          (fun m => m.type == MemType.conversation)).length := by
  exact (C8_recent_window_amended _ "s" 1).1 (by decide)

/-- C2, counterexample: the claim says a second resolution of an
already-resolved checkpoint leaves the status at the first resolution's
value, is reported as a conflict, and performs no duplicate write.  On the
code: after `Resolve(1, true)`, a second `Resolve(1, false)` is reported as
plain success and flips the status `applied → rejected`, and a second
`Resolve(1, true)` is reported as success and writes the file a second
time. -/
theorem C2_resolve_not_idempotent_counterexample :
    let st0 : ApproveState := { cps := [cpPendingA], wf := [], writes := [] }
    let reqT : ApproveRequest :=
      { sessionId := some "s"
        filePath := some "a.py"
        content := some "B1"
        approved := true
        checkpointId := some 1 }
    let reqF : ApproveRequest :=
      { sessionId := some "s"
        filePath := some "a.py"
        approved := false
        checkpointId := some 1 }
    let r1 := approvePost st0 reqT 10
    let r2 := approvePost r1.1 reqF 11
    let r3 := approvePost r1.1 reqT 12
    r1.2 = ApproveResponse.appliedOk "a.py" ∧
    (cpGet r1.1.cps 1).map Checkpoint.status = some CpStatus.applied ∧
    r2.2 = ApproveResponse.rejectedOk ∧
    (cpGet r2.1.cps 1).map Checkpoint.status = some CpStatus.rejected ∧
    r3.2 = ApproveResponse.appliedOk "a.py" ∧
    r3.1.writes.length = 2 := by
  refine ⟨by decide, by decide, by decide, by decide, by decide, by decide⟩

/-- C2, amended: the route performs no already-resolved check and
`updateStatus` overwrites unconditionally — any resolution request naming
an existing checkpoint (here one whose status is already resolved, i.e. not
`pending`) is accepted and reported as success: an approval (with a content
field) sets the status to `applied` and appends a new file write, a
rejection sets the status to `rejected` and writes nothing. -/
theorem C2_resolution_overwrites_amended (st : ApproveState)
    (sess fp c : String) (cpId now : Nat) (cp : Checkpoint)
    (hs : sess ≠ "") (hf : fp ≠ "")
    (hget : cpGet st.cps cpId = some cp)
    (_hres : cp.status ≠ CpStatus.pending) :
    (approvePost st
        { sessionId := some sess
          filePath := some fp
          content := some c
          approved := true
          checkpointId := some cpId } now).2 =
      ApproveResponse.appliedOk fp ∧
    (cpGet (approvePost st
        { sessionId := some sess
          filePath := some fp
          content := some c
          approved := true
          checkpointId := some cpId } now).1.cps cpId).map Checkpoint.status =
      some CpStatus.applied ∧
    (approvePost st
        { sessionId := some sess
          filePath := some fp
          content := some c
          approved := true
          checkpointId := some cpId } now).1.writes =
      st.writes ++
        [{ sessionId := sess, filePath := fp, content := fixNewlines c }] ∧
    (approvePost st
        { sessionId := some sess
          filePath := some fp
          approved := false
          checkpointId := some cpId } now).2 =
      ApproveResponse.rejectedOk ∧
    (cpGet (approvePost st
        { sessionId := some sess
          filePath := some fp
          approved := false
          checkpointId := some cpId } now).1.cps cpId).map Checkpoint.status =
      some CpStatus.rejected ∧
    (approvePost st
        { sessionId := some sess
          filePath := some fp
          approved := false
          checkpointId := some cpId } now).1.writes = st.writes := by
  have hcond : ¬(sess = "" ∨ fp = "") := by
    intro hor
    cases hor with
    | inl h => exact hs h
    | inr h => exact hf h
  refine ⟨?_, ?_, ?_, ?_, ?_, ?_⟩
  · simp [approvePost, hcond, hget]
  · simp [approvePost, hcond, hget, cpGet_cpUpdateStatus]
  · simp [approvePost, hcond, hget]
  · simp [approvePost, hcond, hget]
  · simp [approvePost, hcond, hget, cpGet_cpUpdateStatus]
  · simp [approvePost, hcond, hget]

/-- C2 witness: the amended theorem applied to an already-`applied`
checkpoint. -/
theorem C2_resolution_overwrites_amended_witness :
    (approvePost { cps := [cpAppliedB], wf := [], writes := [] }
        { sessionId := some "s"
          filePath := some "b.py"
          content := some "NEW"
          approved := true
          checkpointId := some 2 } 9).2 =
      ApproveResponse.appliedOk "b.py" ∧
    (cpGet (approvePost { cps := [cpAppliedB], wf := [], writes := [] }
        { sessionId := some "s"
          filePath := some "b.py"
          content := some "NEW"
          approved := true
          checkpointId := some 2 } 9).1.cps 2).map Checkpoint.status =
      some CpStatus.applied ∧
    (approvePost { cps := [cpAppliedB], wf := [], writes := [] }
        { sessionId := some "s"
          filePath := some "b.py"
          content := some "NEW"
          approved := true
          checkpointId := some 2 } 9).1.writes =
      [] ++
        [{ sessionId := "s", filePath := "b.py",
           content := fixNewlines "NEW" : FileWrite }] ∧
    (approvePost { cps := [cpAppliedB], wf := [], writes := [] }
        { sessionId := some "s"
          filePath := some "b.py"
          approved := false
          checkpointId := some 2 } 9).2 =
      ApproveResponse.rejectedOk ∧
    (cpGet (approvePost { cps := [cpAppliedB], wf := [], writes := [] }
        { sessionId := some "s"
          filePath := some "b.py"
          approved := false
          checkpointId := some 2 } 9).1.cps 2).map Checkpoint.status =
      some CpStatus.rejected ∧
    (approvePost { cps := [cpAppliedB], wf := [], writes := [] }
        { sessionId := some "s"
          filePath := some "b.py"
          approved := false
          checkpointId := some 2 } 9).1.writes =
      ([] : List FileWrite) :=
  C2_resolution_overwrites_amended
    { cps := [cpAppliedB], wf := [], writes := [] } "s" "b.py" "NEW" 2 9
    cpAppliedB (by decide) (by decide) (by decide) (by decide)

/-- C6, counterexample: the claim says that on approval the *checkpoint's*
proposed content (normalized) is written to the *checkpoint's* `filePath`.
The route instead writes the *request's* `content` to the *request's*
`filePath`: approving checkpoint 1 (path `a.py`, proposed `AAA`) with a
request carrying path `b.py` and content `BBB` writes `BBB` to `b.py`. -/
theorem C6_writes_request_content_counterexample :
    let st0 : ApproveState := { cps := [cpPendingC], wf := [], writes := [] }
    let req : ApproveRequest :=
      { sessionId := some "s"
        filePath := some "b.py"
        content := some "BBB"
        approved := true
        checkpointId := some 1 }
    (approvePost st0 req 5).1.writes =
      [{ sessionId := "s", filePath := "b.py", content := "BBB" }] ∧
    ("b.py" : String) ≠ cpPendingC.filePath ∧
    ("BBB" : String) ≠ fixNewlines "AAA" := by
  refine ⟨by decide, by decide, by decide⟩

/-- C6, amended: for an existing checkpoint, on `approved=true` with a
content field present the *request's* content, normalized to real
line-break characters, is written to the *request's* `filePath` under the
session's workspace root and the checkpoint becomes `applied` (and the
matching workflow step `completed`); on `approved=true` without a content
field the route answers 400 and changes nothing; on `approved=false` no
file I/O occurs, the checkpoint becomes `rejected`, and the matching
workflow step's status becomes `error`. -/
theorem C6_approval_effect_amended (st : ApproveState) (sess fp c : String)
    (cpId now : Nat) (cp : Checkpoint) (stw : WStatus)
    (hs : sess ≠ "") (hf : fp ≠ "")
    (hget : cpGet st.cps cpId = some cp)
    (hstep : wfStepStatusByCp st.wf sess cpId = some stw) :
    (approvePost st
        { sessionId := some sess
          filePath := some fp
          content := some c
          approved := true
          checkpointId := some cpId } now).1.writes =
      st.writes ++
        [{ sessionId := sess, filePath := fp, content := fixNewlines c }] ∧
    (cpGet (approvePost st
        { sessionId := some sess
          filePath := some fp
          content := some c
          approved := true
          checkpointId := some cpId } now).1.cps cpId).map Checkpoint.status =
      some CpStatus.applied ∧
    wfStepStatusByCp (approvePost st
        { sessionId := some sess
          filePath := some fp
          content := some c
          approved := true
          checkpointId := some cpId } now).1.wf sess cpId =
      some WStatus.completed ∧
    approvePost st
        { sessionId := some sess
          filePath := some fp
          approved := true
          checkpointId := some cpId } now =
      (st, ApproveResponse.missingContent) ∧
    (approvePost st
        { sessionId := some sess
          filePath := some fp
          approved := false
          checkpointId := some cpId } now).1.writes = st.writes ∧
    (cpGet (approvePost st
        { sessionId := some sess
          filePath := some fp
          approved := false
          checkpointId := some cpId } now).1.cps cpId).map Checkpoint.status =
      some CpStatus.rejected ∧
    wfStepStatusByCp (approvePost st
        { sessionId := some sess
          filePath := some fp
          approved := false
          checkpointId := some cpId } now).1.wf sess cpId =
      some WStatus.error := by
  have hcond : ¬(sess = "" ∨ fp = "") := by
    intro hor
    cases hor with
    | inl h => exact hs h
    | inr h => exact hf h
  refine ⟨?_, ?_, ?_, ?_, ?_, ?_, ?_⟩
  · simp [approvePost, hcond, hget]
  · simp [approvePost, hcond, hget, cpGet_cpUpdateStatus]
  · simp only [approvePost, hget]
    rw [if_neg hcond]
    simp only [Bool.not_true, Bool.false_eq_true, if_false]
    exact completeByCheckpoint_sets_completed now hstep
  · simp [approvePost, hcond, hget]
  · simp [approvePost, hcond, hget]
  · simp [approvePost, hcond, hget, cpGet_cpUpdateStatus]
  · simp only [approvePost, hget]
    rw [if_neg hcond]
    simp only [Bool.not_false, if_true]
    exact rejectByCheckpoint_sets_error (some "用户拒绝修改") now hstep

/-- C6 witness: the amended theorem applied to a pending checkpoint (id 1)
whose anchoring step is `pending` in the session's run. -/
theorem C6_approval_effect_amended_witness :
    let wfC : WfStore := (startStep ((startWorkflow [] "s" "u" 1 2 0).1) "s"
      { title := "修改 a.py"
        parentId := some 2
        type := some WType.checkpoint
        status := some WStatus.pending
        checkpointId := some 1 } 3 1).1
    let stC : ApproveState := { cps := [cpPendingC], wf := wfC, writes := [] }
    (approvePost stC
        { sessionId := some "s"
          filePath := some "a.py"
          content := some "line1\\nline2"
          approved := true
          checkpointId := some 1 } 7).1.writes =
      [] ++
        [{ sessionId := "s", filePath := "a.py",
           content := fixNewlines "line1\\nline2" }] ∧
    (cpGet (approvePost stC
        { sessionId := some "s"
          filePath := some "a.py"
          content := some "line1\\nline2"
          approved := true
          checkpointId := some 1 } 7).1.cps 1).map Checkpoint.status =
      some CpStatus.applied ∧
    wfStepStatusByCp (approvePost stC
        { sessionId := some "s"
          filePath := some "a.py"
          content := some "line1\\nline2"
          approved := true
          checkpointId := some 1 } 7).1.wf "s" 1 =
      some WStatus.completed ∧
    approvePost stC
        { sessionId := some "s"
          filePath := some "a.py"
          approved := true
          checkpointId := some 1 } 7 =
      (stC, ApproveResponse.missingContent) ∧
    (approvePost stC
        { sessionId := some "s"
          filePath := some "a.py"
          approved := false
          checkpointId := some 1 } 7).1.writes = ([] : List FileWrite) ∧
    (cpGet (approvePost stC
        { sessionId := some "s"
          filePath := some "a.py"
          approved := false
          checkpointId := some 1 } 7).1.cps 1).map Checkpoint.status =
      some CpStatus.rejected ∧
    wfStepStatusByCp (approvePost stC
        { sessionId := some "s"
          filePath := some "a.py"
          approved := false
          checkpointId := some 1 } 7).1.wf "s" 1 =
      some WStatus.error := by
  exact C6_approval_effect_amended _ "s" "a.py" "line1\\nline2" 1 7 cpPendingC
    WStatus.pending (by decide) (by decide) (by decide) (by decide)

/-! ## C9 — best-effort read on mutation proposal -/

/-- C9: for every `write_file` tool call whose target file cannot be read
(`readFile` throws or yields no content — e.g. the file does not exist),
the executor still creates the checkpoint, with `originalContent` equal to
the empty string and status `pending`, and the only events produced by the
branch are `approval_required` followed by `done` — no `error` event is
emitted for the failed read. -/
theorem C9_absent_file_checkpoint (env : Env) (ls : LoopState)
    (tc : ToolCallReq) (args : ToolArgs)
    (hp : env.parseArgs tc.argumentsStr = some args)
    (hn : tc.name = "write_file")
    (hr : env.readFile (args.path.getD "") = none) :
    ∃ ls', processCall env ls tc = CallOutcome.mutationBreak ls' ∧
      ∃ cp, ls'.es.cps = ls.es.cps ++ [cp] ∧
        cp.originalContent = "" ∧
        cp.status = CpStatus.pending ∧
        cp.filePath = args.path.getD "" ∧
        ls'.es.events =
          ls.es.events ++
            [Event.approval_required cp.id cp.filePath "" cp.modifiedContent,
             Event.done] := by
  unfold processCall
  rw [hp]
  simp only [hn, if_true, hr, Option.getD_none, fixNewlines_empty,
    ExecState.fresh, ExecState.tick, cpCreate]
  cases hroot : ls.rootStepId with
  | none =>
    simp only [hroot]
    refine ⟨_, rfl, ?_⟩
    refine ⟨_, rfl, rfl, rfl, rfl, ?_⟩
    simp [List.append_assoc]
  | some rootId =>
    simp only [hroot]
    refine ⟨_, rfl, ?_⟩
    refine ⟨_, rfl, rfl, rfl, rfl, ?_⟩
    simp [List.append_assoc]

/-- C9 witness: the theorem applied to a concrete `write_file` call on an
absent file. -/
theorem C9_absent_file_checkpoint_witness :
    ∃ ls', processCall envC9 lsC9
        { id := "call_1", name := "write_file", argumentsStr := "x" } =
      CallOutcome.mutationBreak ls' ∧
      ∃ cp, ls'.es.cps = lsC9.es.cps ++ [cp] ∧
        cp.originalContent = "" ∧
        cp.status = CpStatus.pending ∧
        cp.filePath = "hello.py" ∧
        ls'.es.events =
          lsC9.es.events ++
            [Event.approval_required cp.id cp.filePath "" cp.modifiedContent,
             Event.done] :=
  C9_absent_file_checkpoint envC9 lsC9
    { id := "call_1", name := "write_file", argumentsStr := "x" }
    { path := some "hello.py", content := some "print(1)" } rfl rfl rfl

/-! ## C10 — duplicated user message in the prompt -/

/-- After appending a conversation entry, any nonzero recency window on the
same session ends with that entry. -/
theorem recent_after_add (db : MemDb) (um : Memory) (sess : String)
    (hsess : um.sessionId = sess) (hty : um.type = MemType.conversation)
    (n : Nat) (hn : n ≠ 0) :
    ∃ pre, getRecentConversations (dbAddMemory db um) sess n = pre ++ [um] := by
  subst hsess
  unfold getRecentConversations getMemoriesByType
  rw [dbFind_dbAddMemory, List.filter_append]
  have h1 : [um].filter (fun x => x.type == MemType.conversation) = [um] := by
    simp [hty]
  rw [h1]
  unfold sliceNeg
  rw [if_neg hn]
  set lc := (dbFind db um.sessionId).filter
    (fun x => x.type == MemType.conversation) with hlc
  refine ⟨lc.drop ((lc ++ [um]).length - n), ?_⟩
  rw [List.drop_append_of_le_length]
  simp only [List.length_append, List.length_cons, List.length_nil]
  omega

/-- C10: the executor appends the user message to memory *before* loading
the last-20 conversation history, and then builds the prompt as system
instruction + history + the user message again — so the prompt always
carries the new user message twice: once as the final history element and
once as the final explicit user message (and the history window is always
non-empty). -/
theorem C10_duplicated_user_message (opts : ExecOptions) (es0 : ExecState)
    (m : String) :
    ∃ pre, (initExec opts es0 m).messages =
      { role := "system", content := systemPrompt } :: pre ++
        [{ role := "user", content := m }, { role := "user", content := m }] := by
  unfold initExec
  simp only [ExecState.fresh, ExecState.tick]
  obtain ⟨pre, hpre⟩ := recent_after_add es0.db
    { id := es0.nextId + 2
      sessionId := opts.sessionId
      type := MemType.conversation
      content := m
      metaRole := some "user"
      createdAt := es0.clock + 1 } opts.sessionId rfl rfl 20 (by decide)
  refine ⟨pre.map (fun mm => { role := memRole mm, content := mm.content }), ?_⟩
  simp only [buildMessages]
  rw [hpre]
  simp [memRole, List.append_assoc]

/-- C1: the claim says a `write_file` turn emits exactly one
`approval_required` then one `done` and terminates immediately with no
further model calls.  On the code, the `break` after the mutation proposal
only exits the inner `for` loop over the batch's tool calls; the `while`
loop then runs another iteration, so the turn makes a *second* model call
and emits events after the `done`: the stream is
`[approval_required, done, message, done]` with two model calls. -/
theorem C1_mutation_break_does_not_end_turn :
    (execute envC1 { sessionId := "s" } execState0
        "create hello").es.events.map Event.kind =
      [EventKind.approvalK, EventKind.doneK, EventKind.messageK,
       EventKind.doneK] ∧
    (execute envC1 { sessionId := "s" } execState0
        "create hello").es.llmCalls = 2 :=
  ⟨rfl, rfl⟩

/-- C4: the claim says `done` is always the turn's last event and a turn
has exactly one terminal event.  On the code, the post-loop
`iterations >= maxIterations` test cannot distinguish natural completion
on the final allowed iteration from exhaustion: with `maxIterations = 1`
and a model that immediately answers in plain text, the fully successful
turn streams `[message, done, error]` — an `error` event *after* the
`done`, two terminal events.  (The C1 run exhibits a second violation:
events follow the mutation `done`.) -/
theorem C4_error_event_after_done :
    (execute envC4 { sessionId := "s", maxIterations := some 1 }
      execState0 "hola").es.events =
      [Event.message "hi", Event.done, Event.error maxIterMsg] := rfl

/-- C3, counterexample: the claim says argument-validation failures are
never fatal — an error result is fed back and the turn proceeds.  On the
code, `JSON.parse(toolArgsStr)` sits *outside* the per-call `try`, so a
malformed argument string propagates to the outer catch: the turn emits a
single terminal `error` event, makes no further model call (one model call
total), feeds no tool-error message back into the prompt (the message list
is still system/user/user), and marks the root step (id 2) `error`. -/
theorem C3_parse_failure_fatal_counterexample :
    let ls := execute envC3 { sessionId := "s" } execState0 "msg"
    ls.es.events = [Event.error (jsonParseErrorMsg "oops")] ∧
    ls.es.llmCalls = 1 ∧
    ls.messages.map Msg.role = ["system", "user", "user"] ∧
    wfStepStatus ls.es.wf "s" 2 = some WStatus.error :=
  ⟨rfl, rfl, rfl, rfl⟩

/-! ## Executor-level lemmas -/

/-- The chunk-consumption loop only yields `message` events. -/
theorem consumeStream_events_message (cs : List StreamChunk) :
    ∀ e ∈ (consumeStream cs).2.2, ∃ s, e = Event.message s := by
  induction cs with
  | nil => intro e he; simp [consumeStream] at he
  | cons c rest ih =>
    intro e he
    simp only [consumeStream] at he
    by_cases hdone : c.done
    · simp only [hdone, if_true] at he
      by_cases hd : c.delta = ""
      · simp [hd] at he
      · simp [hd] at he
        exact ⟨c.delta, he⟩
    · simp only [hdone, if_false, Bool.false_eq_true] at he
      by_cases hd : c.delta = ""
      · simp only [hd, if_true, List.nil_append] at he
        exact ih e he
      · simp only [hd, if_false] at he
        rcases List.mem_append.mp he with h1 | h2
        · simp at h1
          exact ⟨c.delta, h1⟩
        · exact ih e h2

/-- What the turn setup guarantees before the loop starts: counters,
session, the root step id (`es0.nextId + 1`) and its `in_progress`
status. -/
theorem initExec_facts (opts : ExecOptions) (es0 : ExecState) (m : String) :
    (initExec opts es0 m).iterations = 0 ∧
    (initExec opts es0 m).es.llmCalls = es0.llmCalls ∧
    (initExec opts es0 m).sessionId = opts.sessionId ∧
    (initExec opts es0 m).rootStepId = some (es0.nextId + 1) ∧
    (initExec opts es0 m).es.events = es0.events ∧
    (initExec opts es0 m).es.nextId = es0.nextId + 3 ∧
    wfStepStatus (initExec opts es0 m).es.wf opts.sessionId (es0.nextId + 1) =
      some WStatus.in_progress := by
  refine ⟨rfl, rfl, rfl, rfl, rfl, rfl, ?_⟩
  unfold initExec startWorkflow
  simp only [ExecState.fresh, ExecState.tick]
  unfold wfStepStatus
  rw [wfGet_wfSet]
  simp [List.find?_cons]

/-- C3, amended: a tool call whose arguments fail to JSON-parse is *fatal*
to the turn — when the first tool call of the first model response has
unparseable arguments, the executor's outer catch takes over: exactly one
model call is made, the stream consists only of text deltas followed by
one terminal `error` event carrying the parse error (in particular no
`done`, no `tool_call`, no feed-back-and-retry), and the root workflow
step is marked `error`.  (Unknown-tool and tool-execution failures, by
contrast, are fed back and the turn continues.) -/
theorem C3_parse_failure_aborts_turn_amended (env : Env)
    (opts : ExecOptions) (es0 : ExecState) (m : String)
    (tc : ToolCallReq) (rest : List ToolCallReq)
    (hev : es0.events = [])
    (htc : (consumeStream (env.llm (initExec opts es0 m).messages)).2.1 =
      tc :: rest)
    (hp : env.parseArgs tc.argumentsStr = none) :
    (execute env opts es0 m).es.llmCalls = es0.llmCalls + 1 ∧
    (execute env opts es0 m).es.events.getLast? =
      some (Event.error (jsonParseErrorMsg tc.argumentsStr)) ∧
    (∀ e ∈ (execute env opts es0 m).es.events,
      e.kind = EventKind.messageK ∨ e.kind = EventKind.errorK) ∧
    wfStepStatus (execute env opts es0 m).es.wf opts.sessionId
      (es0.nextId + 1) = some WStatus.error := by
  obtain ⟨h0, h1, h2, h3, h4, h5, h6⟩ := initExec_facts opts es0 m
  have hcs : consumeStream (env.llm (initExec opts es0 m).messages) =
      ((consumeStream (env.llm (initExec opts es0 m).messages)).1, tc :: rest,
       (consumeStream (env.llm (initExec opts es0 m).messages)).2.2) := by
    rw [← htc]
  have hmax := effectiveMaxIterations_pos opts.maxIterations
  obtain ⟨fuel, hfuel⟩ :
      ∃ f, effectiveMaxIterations opts.maxIterations = f + 1 :=
    ⟨effectiveMaxIterations opts.maxIterations - 1, by omega⟩
  unfold execute
  rw [hfuel]
  simp only [loopGo]
  rw [hcs]
  simp only [List.isEmpty_cons, Bool.false_eq_true, if_false,
    processCalls, processCall, hp]
  unfold finalizeExec
  rw [h3]
  refine ⟨?_, ?_, ?_, ?_⟩
  · simp only [ExecState.tick]
    rw [h1]
  · simp only [List.getLast?_concat]
  · intro e he
    simp only [h4, hev, List.nil_append, List.mem_append,
      List.mem_singleton] at he
    rcases he with h | h
    · obtain ⟨s, hs⟩ := consumeStream_events_message _ e h
      left
      rw [hs]
      rfl
    · right
      rw [h]
      rfl
  · simp only [ExecState.tick]
    exact failStep_sets_error _ _ h6

/-- C3 witness: the amended theorem applied to the concrete malformed-args
environment. -/
theorem C3_parse_failure_aborts_turn_amended_witness :
    (execute envC3 { sessionId := "s" } execState0 "msg").es.llmCalls =
      execState0.llmCalls + 1 ∧
    (execute envC3 { sessionId := "s" } execState0 "msg").es.events.getLast? =
      some (Event.error (jsonParseErrorMsg "oops")) ∧
    (∀ e ∈ (execute envC3 { sessionId := "s" } execState0 "msg").es.events,
      e.kind = EventKind.messageK ∨ e.kind = EventKind.errorK) ∧
    wfStepStatus (execute envC3 { sessionId := "s" } execState0 "msg").es.wf
      "s" (execState0.nextId + 1) = some WStatus.error :=
  C3_parse_failure_aborts_turn_amended envC3 { sessionId := "s" } execState0
    "msg" { id := "c1", name := "list_files", argumentsStr := "oops" } []
    rfl rfl rfl

/-- Starting a new step does not change the status of a step with a
different id. -/
theorem wfStepStatus_startStep_other (w : WfStore) (sess : String)
    (input : CreateStepInput) (stepId now rootId : Nat)
    (hne : stepId ≠ rootId) :
    wfStepStatus (startStep w sess input stepId now).1 sess rootId =
      wfStepStatus w sess rootId := by
  unfold startStep
  cases hg : wfGet w sess with
  | none => rfl
  | some run =>
    simp only []
    unfold wfStepStatus
    rw [wfGet_wfSet, hg]
    simp only [Option.some_bind]
    rw [List.find?_append]
    have hnone : List.find? (fun s => s.id == rootId)
        [({ id := stepId, sessionId := sess, title := input.title,
            description := input.description,
            status := input.status.getD WStatus.in_progress,
            type := input.type.getD WType.tool,
            parentId := input.parentId,
            checkpointId := input.checkpointId,
            startedAt := now } : WorkflowStep)] = none := by
      simp [List.find?_cons, hne]
    rw [hnone]
    simp

/-- Completing one step does not change the status of a step with a
different id. -/
theorem wfStepStatus_completeStep_other (w : WfStore) (sess : String)
    (sid now rootId : Nat) (hne : sid ≠ rootId) :
    wfStepStatus (completeStep w sess sid now) sess rootId =
      wfStepStatus w sess rootId := by
  unfold completeStep
  cases hg : wfGet w sess with
  | none => rfl
  | some run =>
    simp only []
    by_cases hf : ((run.steps.find? (fun s => s.id == sid)).isSome : Prop)
    · rw [if_pos hf]
      unfold wfStepStatus
      rw [wfGet_wfSet, hg]
      simp only [Option.some_bind]
      rw [find?_updateFirst_disjoint run.steps (fun s => s.id == sid)
        (fun s => s.id == rootId)
        (fun s =>
          { s with
            status := WStatus.completed
            completedAt := some now })
        (by intro x hx
            simp only [beq_iff_eq] at hx ⊢
            simp [hx, hne])
        (fun _ => rfl)]
    · rw [if_neg hf]

/-- Failing one step does not change the status of a step with a
different id. -/
theorem wfStepStatus_failStep_other (w : WfStore) (sess : String)
    (sid : Nat) (msg : Option String) (now rootId : Nat)
    (hne : sid ≠ rootId) :
    wfStepStatus (failStep w sess sid msg now) sess rootId =
      wfStepStatus w sess rootId := by
  unfold failStep
  cases hg : wfGet w sess with
  | none => rfl
  | some run =>
    simp only []
    by_cases hf : ((run.steps.find? (fun s => s.id == sid)).isSome : Prop)
    · rw [if_pos hf]
      unfold wfStepStatus
      rw [wfGet_wfSet, hg]
      simp only [Option.some_bind]
      rw [find?_updateFirst_disjoint run.steps (fun s => s.id == sid)
        (fun s => s.id == rootId)
        (fun s =>
          { s with
            status := WStatus.error
            completedAt := some now
            errorMsg := (match msg with
              | some e => if e = "" then s.errorMsg else some e
              | none => s.errorMsg) })
        (by intro x hx
            simp only [beq_iff_eq] at hx ⊢
            simp [hx, hne])
        (fun _ => rfl)]
    · rw [if_neg hf]

/-- `startStep` returns either `null` or the freshly created step, whose
id is the one passed in. -/
theorem startStep_snd_shape (w : WfStore) (sess : String)
    (input : CreateStepInput) (stepId now : Nat) :
    (startStep w sess input stepId now).2 = none ∨
    ∃ st, (startStep w sess input stepId now).2 = some st ∧ st.id = stepId := by
  unfold startStep
  cases wfGet w sess with
  | none => left; rfl
  | some run => right; exact ⟨_, rfl, rfl⟩

/-- Handling one non-mutation tool call with parseable arguments always
falls through to the next call, preserving the iteration and model-call
counters, the session, the root step id, the monotone id counter, and the
root step's `in_progress` status. -/
theorem processCall_nonmut (env : Env) (ls : LoopState) (tc : ToolCallReq)
    (hname : tc.name ≠ "write_file")
    (hp : (env.parseArgs tc.argumentsStr).isSome) :
    ∃ ls', processCall env ls tc = CallOutcome.next ls' ∧
      ls'.iterations = ls.iterations ∧
      ls'.es.llmCalls = ls.es.llmCalls ∧
      ls'.sessionId = ls.sessionId ∧
      ls'.rootStepId = ls.rootStepId ∧
      ls.es.nextId ≤ ls'.es.nextId ∧
      (∀ rootId, rootId < ls.es.nextId →
        wfStepStatus ls.es.wf ls.sessionId rootId = some WStatus.in_progress →
        wfStepStatus ls'.es.wf ls'.sessionId rootId =
          some WStatus.in_progress) := by
  obtain ⟨args, hargs⟩ := Option.isSome_iff_exists.mp hp
  unfold processCall
  simp only [hargs]
  rw [if_neg hname]
  cases hroot : ls.rootStepId with
  | none =>
    simp only [ExecState.fresh, ExecState.tick]
    by_cases hk : tc.name ∈ env.knownTools
    · rw [if_pos hk]
      cases hex : env.execTool tc.name args with
      | ok result =>
        refine ⟨_, rfl, rfl, rfl, rfl, ?_, ?_, ?_⟩
        · rfl
        · simp
        · intro rootId hlt hst
          simpa using hst
      | error emsg =>
        refine ⟨_, rfl, rfl, rfl, rfl, ?_, ?_, ?_⟩
        · rfl
        · simp
        · intro rootId hlt hst
          simpa using hst
    · rw [if_neg hk]
      refine ⟨_, rfl, rfl, rfl, rfl, ?_, ?_, ?_⟩
      · rfl
      · simp
      · intro rootId hlt hst
        simpa using hst
  | some rootId0 =>
    simp only [ExecState.fresh, ExecState.tick]
    cases hw : startStep ls.es.wf ls.sessionId
      { title := "调用 " ++ tc.name
        description := some (argsJson args)
        parentId := some rootId0
        type := some WType.tool } ls.es.nextId ls.es.clock with
    | mk wf' stepOpt =>
      simp only [hw]
      have hw1 : (startStep ls.es.wf ls.sessionId
          { title := "调用 " ++ tc.name
            description := some (argsJson args)
            parentId := some rootId0
            type := some WType.tool } ls.es.nextId ls.es.clock).1 = wf' := by
        rw [hw]
      have hA : ∀ r, ls.es.nextId ≠ r →
          wfStepStatus wf' ls.sessionId r =
            wfStepStatus ls.es.wf ls.sessionId r := by
        intro r hr
        rw [← hw1]
        exact wfStepStatus_startStep_other ls.es.wf ls.sessionId _
          ls.es.nextId ls.es.clock r hr
      have hso := startStep_snd_shape ls.es.wf ls.sessionId
        { title := "调用 " ++ tc.name
          description := some (argsJson args)
          parentId := some rootId0
          type := some WType.tool } ls.es.nextId ls.es.clock
      rw [hw] at hso
      rcases hso with hnone | ⟨st, hsome, hid⟩
      · subst hnone
        simp only [Option.map_none']
        by_cases hk : tc.name ∈ env.knownTools
        · rw [if_pos hk]
          cases hex : env.execTool tc.name args with
          | ok result =>
            refine ⟨_, rfl, rfl, rfl, rfl, rfl, Nat.le_add_right _ 2, ?_⟩
            intro rootId hlt hst
            rw [hA rootId (by omega)]
            exact hst
          | error emsg =>
            refine ⟨_, rfl, rfl, rfl, rfl, rfl, Nat.le_add_right _ 1, ?_⟩
            intro rootId hlt hst
            rw [hA rootId (by omega)]
            exact hst
        · rw [if_neg hk]
          refine ⟨_, rfl, rfl, rfl, rfl, rfl, Nat.le_add_right _ 1, ?_⟩
          intro rootId hlt hst
          rw [hA rootId (by omega)]
          exact hst
      · subst hsome
        simp only [Option.map_some']
        by_cases hk : tc.name ∈ env.knownTools
        · rw [if_pos hk]
          cases hex : env.execTool tc.name args with
          | ok result =>
            refine ⟨_, rfl, rfl, rfl, rfl, rfl, Nat.le_add_right _ 2, ?_⟩
            intro rootId hlt hst
            rw [wfStepStatus_completeStep_other wf' ls.sessionId st.id _
              rootId (by omega : st.id ≠ rootId)]
            rw [hA rootId (by omega)]
            exact hst
          | error emsg =>
            refine ⟨_, rfl, rfl, rfl, rfl, rfl, Nat.le_add_right _ 1, ?_⟩
            intro rootId hlt hst
            rw [wfStepStatus_failStep_other wf' ls.sessionId st.id _ _
              rootId (by omega : st.id ≠ rootId)]
            rw [hA rootId (by omega)]
            exact hst
        · rw [if_neg hk]
          refine ⟨_, rfl, rfl, rfl, rfl, rfl, Nat.le_add_right _ 1, ?_⟩
          intro rootId hlt hst
          rw [wfStepStatus_failStep_other wf' ls.sessionId st.id _ _
            rootId (by omega : st.id ≠ rootId)]
          rw [hA rootId (by omega)]
          exact hst

/-- A whole batch of non-mutation, parseable tool calls is processed
without throwing or breaking, with the same preservation guarantees. -/
theorem processCalls_nonmut (env : Env) (tcs : List ToolCallReq)
    (hall : ∀ tc ∈ tcs, tc.name ≠ "write_file" ∧
      (env.parseArgs tc.argumentsStr).isSome) :
    ∀ ls, ∃ ls', processCalls env ls tcs = Except.ok ls' ∧
      ls'.iterations = ls.iterations ∧
      ls'.es.llmCalls = ls.es.llmCalls ∧
      ls'.sessionId = ls.sessionId ∧
      ls'.rootStepId = ls.rootStepId ∧
      ls.es.nextId ≤ ls'.es.nextId ∧
      (∀ rootId, rootId < ls.es.nextId →
        wfStepStatus ls.es.wf ls.sessionId rootId = some WStatus.in_progress →
        wfStepStatus ls'.es.wf ls'.sessionId rootId =
          some WStatus.in_progress) := by
  induction tcs with
  | nil =>
    intro ls
    exact ⟨ls, rfl, rfl, rfl, rfl, rfl, le_refl _, fun r _ h => h⟩
  | cons tc rest ih =>
    intro ls
    obtain ⟨hn, hps⟩ := hall tc (List.mem_cons_self tc rest)
    obtain ⟨ls1, he1, hi1, hl1, hs1, hr1, hx1, hp1⟩ :=
      processCall_nonmut env ls tc hn hps
    obtain ⟨ls2, he2, hi2, hl2, hs2, hr2, hx2, hp2⟩ :=
      ih (fun t ht => hall t (List.mem_cons_of_mem tc ht)) ls1
    refine ⟨ls2, ?_, ?_, ?_, ?_, ?_, ?_, ?_⟩
    · simp only [processCalls, he1]
      exact he2
    · rw [hi2, hi1]
    · rw [hl2, hl1]
    · rw [hs2, hs1]
    · rw [hr2, hr1]
    · exact le_trans hx1 hx2
    · intro r hlt hst
      exact hp2 r (lt_of_lt_of_le hlt hx1) (hp1 r hlt hst)

/-- Against a model that answers every call with at least one
non-mutation, parseable tool call, each loop iteration consumes exactly
one unit of fuel and one model call, and the loop runs its fuel out. -/
theorem loopGo_forced (env : Env) (sess : String)
    (H : ∀ msgs, (consumeStream (env.llm msgs)).2.1 ≠ [] ∧
      ∀ tc ∈ (consumeStream (env.llm msgs)).2.1,
        tc.name ≠ "write_file" ∧ (env.parseArgs tc.argumentsStr).isSome) :
    ∀ fuel ls, ls.sessionId = sess →
      ∃ ls', loopGo env sess fuel ls = LoopResult.finished ls' ∧
        ls'.iterations = ls.iterations + fuel ∧
        ls'.es.llmCalls = ls.es.llmCalls + fuel ∧
        ls'.sessionId = sess ∧
        ls'.rootStepId = ls.rootStepId ∧
        ls.es.nextId ≤ ls'.es.nextId ∧
        (∀ rootId, rootId < ls.es.nextId →
          wfStepStatus ls.es.wf sess rootId = some WStatus.in_progress →
          wfStepStatus ls'.es.wf sess rootId = some WStatus.in_progress) := by
  intro fuel
  induction fuel with
  | zero =>
    intro ls hsess
    exact ⟨ls, rfl, rfl, rfl, hsess, rfl, le_refl _, fun r _ h => h⟩
  | succ fuel ih =>
    intro ls hsess
    obtain ⟨hne, hall⟩ := H ls.messages
    obtain ⟨tc, rest, hl⟩ := List.exists_cons_of_ne_nil hne
    have hcs : consumeStream (env.llm ls.messages) =
        ((consumeStream (env.llm ls.messages)).1, tc :: rest,
         (consumeStream (env.llm ls.messages)).2.2) := by
      rw [← hl]
    rw [hl] at hall
    simp only [loopGo]
    rw [hcs]
    simp only [List.isEmpty_cons, Bool.false_eq_true, if_false]
    obtain ⟨ls1, he1, hi1, hl1, hs1, hr1, hx1, hp1⟩ :=
      processCalls_nonmut env (tc :: rest) hall _
    rw [he1]
    have hi1' : ls1.iterations = ls.iterations + 1 := hi1
    have hl1' : ls1.es.llmCalls = ls.es.llmCalls + 1 := hl1
    have hs1' : ls1.sessionId = ls.sessionId := hs1
    have hr1' : ls1.rootStepId = ls.rootStepId := hr1
    have hx1' : ls.es.nextId ≤ ls1.es.nextId := hx1
    have hp1' : ∀ r, r < ls.es.nextId →
        wfStepStatus ls.es.wf ls.sessionId r = some WStatus.in_progress →
        wfStepStatus ls1.es.wf ls1.sessionId r = some WStatus.in_progress := hp1
    obtain ⟨ls2, he2, hi2, hl2, hs2, hr2, hx2, hp2⟩ :=
      ih ls1 (by rw [hs1', hsess])
    refine ⟨ls2, he2, ?_, ?_, hs2, ?_, ?_, ?_⟩
    · omega
    · omega
    · rw [hr2, hr1']
    · exact le_trans hx1' hx2
    · intro r hlt hst
      refine hp2 r (lt_of_lt_of_le hlt hx1') ?_
      have := hp1' r hlt (by rw [hsess]; exact hst)
      rw [hs1', hsess] at this
      exact this

/-- C5: against a model that on every call returns at least one
non-mutation tool call (with arguments the executor can parse), the turn
performs exactly `effectiveMaxIterations opts.maxIterations` loop
iterations — reference 10, from `options.maxIterations || 10` — makes
exactly that many model calls (never more), then marks the root workflow
step `error` and ends the stream with a final `error` event carrying the
max-iterations message. -/
theorem C5_iteration_bound_confirmed (env : Env) (opts : ExecOptions)
    (es0 : ExecState) (m : String)
    (H : ∀ msgs, (consumeStream (env.llm msgs)).2.1 ≠ [] ∧
      ∀ tc ∈ (consumeStream (env.llm msgs)).2.1,
        tc.name ≠ "write_file" ∧ (env.parseArgs tc.argumentsStr).isSome) :
    (execute env opts es0 m).iterations =
      effectiveMaxIterations opts.maxIterations ∧
    (execute env opts es0 m).es.llmCalls =
      es0.llmCalls + effectiveMaxIterations opts.maxIterations ∧
    (execute env opts es0 m).es.events.getLast? =
      some (Event.error maxIterMsg) ∧
    wfStepStatus (execute env opts es0 m).es.wf opts.sessionId
      (es0.nextId + 1) = some WStatus.error := by
  obtain ⟨h0, h1, h2, h3, h4, h5, h6⟩ := initExec_facts opts es0 m
  obtain ⟨ls', he, hi, hl, hs, hr, hx, hp⟩ :=
    loopGo_forced env opts.sessionId H
      (effectiveMaxIterations opts.maxIterations) (initExec opts es0 m) h2
  have hroot : wfStepStatus ls'.es.wf opts.sessionId (es0.nextId + 1) =
      some WStatus.in_progress := by
    refine hp (es0.nextId + 1) ?_ h6
    rw [h5]
    omega
  unfold execute
  dsimp only
  rw [he]
  unfold finalizeExec
  dsimp only
  have hiter : ls'.iterations ≥ effectiveMaxIterations opts.maxIterations := by
    rw [hi, h0]
    omega
  rw [if_pos hiter]
  rw [hr, h3]
  simp only [ExecState.tick]
  refine ⟨?_, ?_, ?_, ?_⟩
  · have : ls'.iterations = effectiveMaxIterations opts.maxIterations := by
      rw [hi, h0]
      omega
    exact this
  · have : ls'.es.llmCalls =
        es0.llmCalls + effectiveMaxIterations opts.maxIterations := by
      rw [hl, h1]
    exact this
  · exact List.getLast?_concat _
  · exact failStep_sets_error (some maxIterMsg) ls'.es.clock hroot

/-- C5 witness: the theorem applied to the always-tool-call mock with
`maxIterations = 2`. -/
theorem C5_iteration_bound_confirmed_witness :
    (execute envC5 { sessionId := "s", maxIterations := some 2 }
      execState0 "msg").iterations = effectiveMaxIterations (some 2) ∧
    (execute envC5 { sessionId := "s", maxIterations := some 2 }
      execState0 "msg").es.llmCalls =
      execState0.llmCalls + effectiveMaxIterations (some 2) ∧
    (execute envC5 { sessionId := "s", maxIterations := some 2 }
      execState0 "msg").es.events.getLast? = some (Event.error maxIterMsg) ∧
    wfStepStatus (execute envC5 { sessionId := "s", maxIterations := some 2 }
      execState0 "msg").es.wf "s" (execState0.nextId + 1) =
      some WStatus.error :=
  C5_iteration_bound_confirmed envC5 { sessionId := "s", maxIterations := some 2 } execState0 "msg"
    (fun msgs => by
      have hred : consumeStream (envC5.llm msgs) =
          ("", [{ id := "c1", name := "list_files", argumentsStr := "a" }],
            []) := rfl
      rw [hred]
      exact ⟨by decide, by decide⟩)

end AgentIDE
